import Mathlib

/-!
Verification of the custom-electron-titlebar sources.

The development shallowly embeds the two source files:
  * `src/main/attach-titlebar-to-window.ts` — the attach relay, the binary
    keybinding encoding (`createSimpleKeybinding`), `SimpleKeybinding`,
    `ScanCodeBinding`;
  * `src/titlebar.ts` — `mnemonicMenuLabel` and the menu action tree built by
    `updateMenu` / `updateActions`.
Machine integers are embedded as `Nat` (the packed keybinding is masked to its
low bits by the code itself), JS strings as `String` / `List Char`, and the
DOM/IPC side effects of the attach relay as explicit data.
-/

namespace CET

/-! ### Operating systems (`vs/base/common/platform`) -/

/-- The `OperatingSystem` enumeration used by `createSimpleKeybinding`; the
decoder only ever compares against `Macintosh`. -/
inductive OperatingSystem where
  | Windows
  | Macintosh
  | Linux
deriving DecidableEq, Repr

/-! ### Binary keybinding masks and decoding -/

namespace BinaryKeybindingsMask

def CtrlCmd : Nat := 1 <<< 11

def Shift : Nat := 1 <<< 10

def Alt : Nat := 1 <<< 9

def WinCtrl : Nat := 1 <<< 8

def KeyCode : Nat := 0xFF

end BinaryKeybindingsMask

/-- The five fields of a `SimpleKeybinding`; `keyCode` is the numeric
`KeyCode` enumeration value. -/
structure SimpleKeybinding where
  ctrlKey : Bool
  shiftKey : Bool
  altKey : Bool
  metaKey : Bool
  keyCode : Nat
deriving DecidableEq, Repr

/-- Embedding of `createSimpleKeybinding(keybinding, OS)`: mask tests become
`!= 0` tests on `Nat.land`, mirroring JS truthiness of `keybinding & mask`. -/
def createSimpleKeybinding (keybinding : Nat) (OS : OperatingSystem) : SimpleKeybinding :=
  let ctrlCmd := (keybinding &&& BinaryKeybindingsMask.CtrlCmd) != 0
  let winCtrl := (keybinding &&& BinaryKeybindingsMask.WinCtrl) != 0
  let ctrlKey := if OS = OperatingSystem.Macintosh then winCtrl else ctrlCmd
  let shiftKey := (keybinding &&& BinaryKeybindingsMask.Shift) != 0
  let altKey := (keybinding &&& BinaryKeybindingsMask.Alt) != 0
  let metaKey := if OS = OperatingSystem.Macintosh then ctrlCmd else winCtrl
  let keyCode := keybinding &&& BinaryKeybindingsMask.KeyCode
  { ctrlKey := ctrlKey, shiftKey := shiftKey, altKey := altKey,
    metaKey := metaKey, keyCode := keyCode }

/-! ### Decimal rendering of a number (JS `${n}` inside `getHashCode`) -/

/-- Decimal digit list of `n`, most significant first: the decimal string a JS
template literal produces for a nonnegative integer. -/
def decStr (n : Nat) : List Char :=
  if _h : n < 10 then [Nat.digitChar n]
  else decStr (n / 10) ++ [Nat.digitChar (n % 10)]
termination_by n
decreasing_by exact Nat.div_lt_self (by omega) (by omega)

theorem decStr_of_lt {n : Nat} (h : n < 10) : decStr n = [Nat.digitChar n] := by
  rw [decStr]; simp [h]

theorem decStr_of_ge {n : Nat} (h : ¬ n < 10) :
    decStr n = decStr (n / 10) ++ [Nat.digitChar (n % 10)] := by
  rw [decStr]; simp [h]

theorem decStr_ne_nil (n : Nat) : decStr n ≠ [] := by
  by_cases h : n < 10
  · rw [decStr_of_lt h]; simp
  · rw [decStr_of_ge h]; simp

theorem digitChar_inj_lt :
    ∀ a, a < 10 → ∀ b, b < 10 → Nat.digitChar a = Nat.digitChar b → a = b := by
  decide

theorem decStr_inj : ∀ m n : Nat, decStr m = decStr n → m = n := by
  intro m
  induction m using Nat.strong_induction_on with
  | _ m ih =>
    intro n h
    by_cases hm : m < 10
    · by_cases hn : n < 10
      · rw [decStr_of_lt hm, decStr_of_lt hn] at h
        exact digitChar_inj_lt m hm n hn (List.cons.injEq .. ▸ h |>.1)
      · rw [decStr_of_lt hm, decStr_of_ge hn] at h
        have hl := congrArg List.length h
        have hp := List.length_pos.mpr (decStr_ne_nil (n / 10))
        simp only [List.length_append, List.length_cons, List.length_nil] at hl
        omega
    · by_cases hn : n < 10
      · rw [decStr_of_ge hm, decStr_of_lt hn] at h
        have hl := congrArg List.length h
        have hp := List.length_pos.mpr (decStr_ne_nil (m / 10))
        simp only [List.length_append, List.length_cons, List.length_nil] at hl
        omega
      · rw [decStr_of_ge hm, decStr_of_ge hn] at h
        have hlen : ([Nat.digitChar (m % 10)] : List Char).length =
            ([Nat.digitChar (n % 10)] : List Char).length := by simp
        obtain ⟨h1, h2⟩ := List.append_inj' h hlen
        have hdiv : m / 10 = n / 10 :=
          ih (m / 10) (Nat.div_lt_self (by omega) (by omega)) (n / 10) h1
        have hmod : m % 10 = n % 10 := by
          have := (List.cons.injEq .. ▸ h2).1
          exact digitChar_inj_lt _ (Nat.mod_lt _ (by omega)) _ (Nat.mod_lt _ (by omega)) this
        omega

/-! ### SimpleKeybinding methods -/

/-- Embedding of `SimpleKeybinding.equals`: field-wise `===` conjunction. -/
def SimpleKeybinding.equals (a other : SimpleKeybinding) : Bool :=
  a.ctrlKey == other.ctrlKey
    && a.shiftKey == other.shiftKey
    && a.altKey == other.altKey
    && a.metaKey == other.metaKey
    && a.keyCode == other.keyCode

/-- Embedding of `SimpleKeybinding.getHashCode`: four `'1'`/`'0'` digits for
the modifier flags followed by the decimal rendering of the key code. -/
def SimpleKeybinding.getHashCode (a : SimpleKeybinding) : String :=
  (if a.ctrlKey then "1" else "0")
    ++ (if a.shiftKey then "1" else "0")
    ++ (if a.altKey then "1" else "0")
    ++ (if a.metaKey then "1" else "0")
    ++ String.mk (decStr a.keyCode)

/-! ### KeyCode and ScanCode constants (from `vs/base/common/keyCodes`, an
external dependency of the two source files; only the distinctness of the
enumeration values is relied upon below). -/

namespace KeyCode

def Unknown : Nat := 0

def Shift : Nat := 4

def Ctrl : Nat := 5

def Alt : Nat := 6

def KeyA : Nat := 31

def Meta : Nat := 57

end KeyCode

/-- Embedding of `SimpleKeybinding.isModifierKey`. -/
def SimpleKeybinding.isModifierKey (a : SimpleKeybinding) : Bool :=
  a.keyCode == KeyCode.Unknown
    || a.keyCode == KeyCode.Ctrl
    || a.keyCode == KeyCode.Meta
    || a.keyCode == KeyCode.Alt
    || a.keyCode == KeyCode.Shift

/-- Embedding of `SimpleKeybinding.isDuplicateModifierCase`. -/
def SimpleKeybinding.isDuplicateModifierCase (a : SimpleKeybinding) : Bool :=
  (a.ctrlKey && a.keyCode == KeyCode.Ctrl)
    || (a.shiftKey && a.keyCode == KeyCode.Shift)
    || (a.altKey && a.keyCode == KeyCode.Alt)
    || (a.metaKey && a.keyCode == KeyCode.Meta)

namespace ScanCode

def ControlLeft : Nat := 157

def ShiftLeft : Nat := 158

def AltLeft : Nat := 159

def MetaLeft : Nat := 160

def ControlRight : Nat := 161

def ShiftRight : Nat := 162

def AltRight : Nat := 163

def MetaRight : Nat := 164

def KeyA : Nat := 10

end ScanCode

/-- The five fields of a `ScanCodeBinding`; `scanCode` is the numeric
`ScanCode` enumeration value. -/
structure ScanCodeBinding where
  ctrlKey : Bool
  shiftKey : Bool
  altKey : Bool
  metaKey : Bool
  scanCode : Nat
deriving DecidableEq, Repr

/-- Embedding of `ScanCodeBinding.equals`. -/
def ScanCodeBinding.equals (a other : ScanCodeBinding) : Bool :=
  a.ctrlKey == other.ctrlKey
    && a.shiftKey == other.shiftKey
    && a.altKey == other.altKey
    && a.metaKey == other.metaKey
    && a.scanCode == other.scanCode

/-- Embedding of `ScanCodeBinding.isDuplicateModifierCase`. -/
def ScanCodeBinding.isDuplicateModifierCase (a : ScanCodeBinding) : Bool :=
  (a.ctrlKey && (a.scanCode == ScanCode.ControlLeft || a.scanCode == ScanCode.ControlRight))
    || (a.shiftKey && (a.scanCode == ScanCode.ShiftLeft || a.scanCode == ScanCode.ShiftRight))
    || (a.altKey && (a.scanCode == ScanCode.AltLeft || a.scanCode == ScanCode.AltRight))
    || (a.metaKey && (a.scanCode == ScanCode.MetaLeft || a.scanCode == ScanCode.MetaRight))

/-! ### mnemonicMenuLabel (`src/titlebar.ts`, lines 709-715)

The three JS regex replaces are embedded as left-to-right scans over the
character list, alternatives tried in the regex's order at each position. -/

/-- A JS `\w` character (no unicode flag): `[A-Za-z0-9_]`. -/
def isWordChar (c : Char) : Bool := c.isAlphanum || c == '_'

/-- Embedding of `label.replace(/&&|&/g, m => m === '&' ? '&&' : '&')`: a
`"&&"` match is replaced by `"&"`, a lone `"&"` match by `"&&"`. -/
def swapAmp : List Char → List Char
  | '&' :: '&' :: rest => '&' :: swapAmp rest
  | '&' :: rest => '&' :: '&' :: swapAmp rest
  | c :: rest => c :: swapAmp rest
  | [] => []

/-- Embedding of `label.replace(/\(&&\w\)|&&/g, '')`: a `"(&&X)"` group (with
`X` a word character) or a `"&&"` pair is removed; on a failed match the scan
advances one character. -/
def stripMnemonics : List Char → List Char
  | '(' :: '&' :: '&' :: c :: ')' :: rest =>
      if isWordChar c then stripMnemonics rest
      else '(' :: stripMnemonics ('&' :: '&' :: c :: ')' :: rest)
  | '&' :: '&' :: rest => stripMnemonics rest
  | c :: rest => c :: stripMnemonics rest
  | [] => []

/-- Embedding of `.replace(/&/g, isMacintosh ? '&' : '&&')`: every `'&'` is
replaced by itself on a Macintosh and doubled otherwise. -/
def escapeAmp (isMacintosh : Bool) : List Char → List Char
  | '&' :: rest =>
      if isMacintosh then '&' :: escapeAmp isMacintosh rest
      else '&' :: '&' :: escapeAmp isMacintosh rest
  | c :: rest => c :: escapeAmp isMacintosh rest
  | [] => []

/-- Embedding of `mnemonicMenuLabel(label, forceDisableMnemonics)`; the
module-level `isMacintosh` platform constant is passed explicitly. -/
def mnemonicMenuLabel (isMacintosh forceDisableMnemonics : Bool) (label : String) : String :=
  if isMacintosh || forceDisableMnemonics then
    String.mk (escapeAmp isMacintosh (stripMnemonics label.data))
  else
    String.mk (swapAmp label.data)

/-! ### The menu action tree built by `updateMenu` (`src/titlebar.ts`) -/

/-- A node of the externally supplied menu tree: an Electron `MenuItem` either
carries a `submenu` or is a leaf with `id`, `label`, `toolTip`, `enabled`,
`checked` (the deferred click thunk carries no data relevant here). -/
inductive MenuItem where
  | leaf (id label toolTip : String) (enabled checked : Bool)
  | submenu (label : String) (items : List MenuItem)

/-- A built action: `new Action(id, label, '', enabled, ...)` with `tooltip`
and `checked` set afterwards, or a `SubmenuAction(_, label, actions)`. -/
inductive CAction where
  | act (id label tooltip : String) (enabled checked : Bool)
  | subAction (label : String) (actions : List CAction)

mutual

/-- The state of `target` inside `updateActions` after the `for` loop over
`menu.items` and before the final `target.pop()`: the actions pushed for the
items in order. `updateActions` runs under the `!isMacintosh` guard of
`updateMenu`, so labels go through the non-Macintosh `mnemonicMenuLabel`
with no force flag. -/
def buildPushed : List MenuItem → List CAction
  | [] => []
  | it :: rest => buildOne it ++ buildPushed rest

/-- What one loop iteration pushes onto `target`: a leaf pushes an `Action`;
a submenu recursively builds `submenuActions` (a full `updateActions` run,
pop included) and pushes a `SubmenuAction` only when that list is nonempty. -/
def buildOne : MenuItem → List CAction
  | MenuItem.leaf i l t e c => [CAction.act i (mnemonicMenuLabel false false l) t e c]
  | MenuItem.submenu l sub =>
      let submenuActions := (buildPushed sub).dropLast
      if submenuActions.length > 0 then
        [CAction.subAction (mnemonicMenuLabel false false l) submenuActions]
      else
        []

end

/-- Embedding of `updateActions(menu, target, _)` as a function of the items:
the pushed list with its last element removed by the trailing `target.pop()`. -/
def buildActions (items : List MenuItem) : List CAction :=
  (buildPushed items).dropLast

/-- Whether an item makes the `updateActions` loop push an action: every leaf
does; a submenu does exactly when its own recursive build is nonempty. -/
def producesAction : MenuItem → Bool
  | MenuItem.leaf .. => true
  | MenuItem.submenu _ sub => (buildActions sub).length > 0

/-- The `label` property of a menu item. -/
def MenuItem.labelOf : MenuItem → String
  | MenuItem.leaf _ l _ _ _ => l
  | MenuItem.submenu l _ => l

/-- Embedding of the per-top-level-item loop of `updateMenu` (non-Macintosh):
for every `item of menu.items` a fresh `actions` array is filled by
`updateActions(menu, actions, item.label)` — on the whole root `menu`, not on
`item.submenu` — and pushed with the item's mnemonic label. -/
def updateMenuEntries (items : List MenuItem) : List (String × List CAction) :=
  items.map (fun it => (mnemonicMenuLabel false false it.labelOf, buildActions items))

mutual

/-- No `SubmenuAction` anywhere in this action carries an empty action list. -/
def noEmptySubDeep : CAction → Bool
  | CAction.act .. => true
  | CAction.subAction _ actions => !actions.isEmpty && noEmptySubDeepList actions

/-- `noEmptySubDeep` over every action of a list. -/
def noEmptySubDeepList : List CAction → Bool
  | [] => true
  | a :: rest => noEmptySubDeep a && noEmptySubDeepList rest

end

/-! ### The attach relay (`src/main/attach-titlebar-to-window.ts`, lines 6-34) -/

/-- The observable effects of the attach relay, as data: the pair passed to
`setMinimumSize`, and the native-event → (channel, payload) forwarding table
registered by the four `browserWindow.on` calls. -/
structure AttachResult where
  minimumSize : Nat × Nat
  handlers : List (String × String × Bool)
deriving DecidableEq, Repr

/-- Embedding of the module export: `sizes` is the array returned by
`browserWindow.getMinimumSize()`. `height` starts at 270; when
`sizes.length >= 1`, the `forEach` overwrites `height` with each element in
turn whenever `sizes[1]` is truthy (present and nonzero). The window then gets
`setMinimumSize(400, height)` and the four event forwardings. -/
def attachTitlebarToWindow (sizes : List Nat) : AttachResult :=
  let height :=
    if sizes.length ≥ 1 then
      sizes.foldl (fun h size => if sizes.getD 1 0 ≠ 0 then size else h) 270
    else 270
  { minimumSize := (400, height)
    handlers := [("enter-full-screen", "window-fullscreen", true),
                 ("leave-full-screen", "window-fullscreen", false),
                 ("focus", "window-focus", true),
                 ("blur", "window-focus", false)] }

/-! ## Theorems -/

/-- A JS truthiness test `(p & 2^k) ? true : false` is the `k`-th bit of `p`. -/
theorem mask_testBit (p k m : Nat) (hm : m = 2 ^ k) : ((p &&& m) != 0) = p.testBit k := by
  subst hm; cases h : p.testBit k <;> simp [Nat.and_two_pow, h]

/-- Masking with `0xFF` keeps the low eight bits. -/
theorem land_mask_keyCode (q : Nat) : q &&& BinaryKeybindingsMask.KeyCode = q % 256 := by
  have h : BinaryKeybindingsMask.KeyCode = 2 ^ 8 - 1 := by decide
  rw [h, Nat.and_pow_two_sub_one_eq_mod]

/-- C1. `createSimpleKeybinding` is a total function (so decoding any 12-bit
packed integer is deterministic and total by construction), and for every
12-bit `p` the decoded modifiers satisfy the swap invariant: the Macintosh
`ctrlKey` is the non-Macintosh `metaKey` and vice versa, `shiftKey` and
`altKey` agree on every OS and are bits 10 and 9 of `p`, and `keyCode` is the
low 8 bits of `p` on every OS. -/
theorem createSimpleKeybinding_swap (p : Nat) (_hp : p < 4096) (os : OperatingSystem)
    (hos : os ≠ OperatingSystem.Macintosh) :
    (createSimpleKeybinding p OperatingSystem.Macintosh).ctrlKey
        = (createSimpleKeybinding p os).metaKey
      ∧ (createSimpleKeybinding p OperatingSystem.Macintosh).metaKey
        = (createSimpleKeybinding p os).ctrlKey
      ∧ (createSimpleKeybinding p OperatingSystem.Macintosh).shiftKey
        = (createSimpleKeybinding p os).shiftKey
      ∧ (createSimpleKeybinding p OperatingSystem.Macintosh).altKey
        = (createSimpleKeybinding p os).altKey
      ∧ (createSimpleKeybinding p os).shiftKey = p.testBit 10
      ∧ (createSimpleKeybinding p os).altKey = p.testBit 9
      ∧ (createSimpleKeybinding p os).keyCode = p % 256
      ∧ (createSimpleKeybinding p OperatingSystem.Macintosh).keyCode = p % 256 := by
  have h10 : ((p &&& BinaryKeybindingsMask.Shift) != 0) = p.testBit 10 :=
    mask_testBit p 10 _ (by decide)
  have h9 : ((p &&& BinaryKeybindingsMask.Alt) != 0) = p.testBit 9 :=
    mask_testBit p 9 _ (by decide)
  cases os with
  | Macintosh => exact absurd rfl hos
  | Windows =>
      refine ⟨rfl, rfl, rfl, rfl, ?_, ?_, ?_, ?_⟩ <;>
        simp [createSimpleKeybinding, h10, h9, land_mask_keyCode]
  | Linux =>
      refine ⟨rfl, rfl, rfl, rfl, ?_, ?_, ?_, ?_⟩ <;>
        simp [createSimpleKeybinding, h10, h9, land_mask_keyCode]

/-- Witness for C1 at the concrete packed value `0b100000000001` and
`OperatingSystem.Windows`. -/
theorem createSimpleKeybinding_swap_witness :
    (createSimpleKeybinding 2049 OperatingSystem.Macintosh).ctrlKey
      = (createSimpleKeybinding 2049 OperatingSystem.Windows).metaKey :=
  (createSimpleKeybinding_swap 2049 (by decide) OperatingSystem.Windows (by decide)).1

/-- C4 counterexample. The packed value `0b000100000001` has bit 8 (the
`winCtrl` flag) set, not bit 11 (`ctrlCmd`), so on a non-Macintosh OS it does
not decode to `{ctrlKey:true, ..., metaKey:false, keyCode:1}` as the claim
states: it decodes to `{ctrlKey:false, ..., metaKey:true, keyCode:1}`. -/
theorem decode_scenario3_counterexample :
    createSimpleKeybinding 0b000100000001 OperatingSystem.Windows
        = { ctrlKey := false, shiftKey := false, altKey := false,
            metaKey := true, keyCode := 1 }
      ∧ createSimpleKeybinding 0b000100000001 OperatingSystem.Windows
        ≠ { ctrlKey := true, shiftKey := false, altKey := false,
            metaKey := false, keyCode := 1 } := by
  constructor
  · decide
  · decide

/-- C4 amended: with the packed value corrected to `0b100000000001` (ctrlCmd
bit set, key code 1), decoding on a non-Macintosh OS yields
`{ctrlKey:true, shiftKey:false, altKey:false, metaKey:false, keyCode:1}` and
decoding the same value on Macintosh yields
`{ctrlKey:false, shiftKey:false, altKey:false, metaKey:true, keyCode:1}`. -/
theorem decode_scenario3_amended :
    createSimpleKeybinding 0b100000000001 OperatingSystem.Windows
        = { ctrlKey := true, shiftKey := false, altKey := false,
            metaKey := false, keyCode := 1 }
      ∧ createSimpleKeybinding 0b100000000001 OperatingSystem.Linux
        = { ctrlKey := true, shiftKey := false, altKey := false,
            metaKey := false, keyCode := 1 }
      ∧ createSimpleKeybinding 0b100000000001 OperatingSystem.Macintosh
        = { ctrlKey := false, shiftKey := false, altKey := false,
            metaKey := true, keyCode := 1 } := by
  refine ⟨?_, ?_, ?_⟩ <;> decide

/-- C7. `isDuplicateModifierCase` returns `true` exactly when some modifier
flag is set and the key code (respectively scan code) names that same
modifier; in particular `{ctrlKey:true, keyCode:Ctrl}` gives `true` and
`{ctrlKey:true, keyCode:KeyA}` gives `false`. -/
theorem isDuplicateModifierCase_iff :
    (∀ kb : SimpleKeybinding,
        kb.isDuplicateModifierCase = true ↔
          ((kb.ctrlKey = true ∧ kb.keyCode = KeyCode.Ctrl)
            ∨ (kb.shiftKey = true ∧ kb.keyCode = KeyCode.Shift)
            ∨ (kb.altKey = true ∧ kb.keyCode = KeyCode.Alt)
            ∨ (kb.metaKey = true ∧ kb.keyCode = KeyCode.Meta)))
      ∧ (∀ sb : ScanCodeBinding,
          sb.isDuplicateModifierCase = true ↔
            ((sb.ctrlKey = true
                ∧ (sb.scanCode = ScanCode.ControlLeft ∨ sb.scanCode = ScanCode.ControlRight))
              ∨ (sb.shiftKey = true
                ∧ (sb.scanCode = ScanCode.ShiftLeft ∨ sb.scanCode = ScanCode.ShiftRight))
              ∨ (sb.altKey = true
                ∧ (sb.scanCode = ScanCode.AltLeft ∨ sb.scanCode = ScanCode.AltRight))
              ∨ (sb.metaKey = true
                ∧ (sb.scanCode = ScanCode.MetaLeft ∨ sb.scanCode = ScanCode.MetaRight))))
      ∧ SimpleKeybinding.isDuplicateModifierCase
          { ctrlKey := true, shiftKey := false, altKey := false, metaKey := false,
            keyCode := KeyCode.Ctrl } = true
      ∧ SimpleKeybinding.isDuplicateModifierCase
          { ctrlKey := true, shiftKey := false, altKey := false, metaKey := false,
            keyCode := KeyCode.KeyA } = false := by
  refine ⟨?_, ?_, by decide, by decide⟩
  · intro kb
    simp only [SimpleKeybinding.isDuplicateModifierCase, Bool.or_eq_true, Bool.and_eq_true,
      beq_iff_eq]
    tauto
  · intro sb
    simp only [ScanCodeBinding.isDuplicateModifierCase, Bool.or_eq_true, Bool.and_eq_true,
      beq_iff_eq]
    tauto

/-- The character list of `getHashCode`: four flag digits then the decimal
digits of the key code. -/
theorem getHashCode_data (a : SimpleKeybinding) :
    a.getHashCode.data =
      (if a.ctrlKey then '1' else '0') :: (if a.shiftKey then '1' else '0')
        :: (if a.altKey then '1' else '0') :: (if a.metaKey then '1' else '0')
        :: decStr a.keyCode := by
  obtain ⟨c, s, t, m, k⟩ := a
  cases c <;> cases s <;> cases t <;> cases m <;> rfl

/-- `equals` is field-wise equality on the five fields. -/
theorem equals_iff_fields (a b : SimpleKeybinding) :
    a.equals b = true ↔
      (a.ctrlKey = b.ctrlKey ∧ a.shiftKey = b.shiftKey ∧ a.altKey = b.altKey
        ∧ a.metaKey = b.metaKey ∧ a.keyCode = b.keyCode) := by
  simp only [SimpleKeybinding.equals, Bool.and_eq_true, beq_iff_eq]
  tauto

/-- C8. `equals` is reflexive and symmetric and holds exactly when all five
fields agree, and two keybindings have the same `getHashCode` string exactly
when `equals` holds: the hash (four fixed flag digits followed by the decimal
key code) is injective over the five fields. -/
theorem equals_getHashCode_props :
    ∀ a b : SimpleKeybinding,
      a.equals a = true
        ∧ a.equals b = b.equals a
        ∧ (a.equals b = true ↔
            (a.ctrlKey = b.ctrlKey ∧ a.shiftKey = b.shiftKey ∧ a.altKey = b.altKey
              ∧ a.metaKey = b.metaKey ∧ a.keyCode = b.keyCode))
        ∧ (a.getHashCode = b.getHashCode ↔ a.equals b = true) := by
  intro a b
  refine ⟨?_, ?_, equals_iff_fields a b, ?_⟩
  · simp [SimpleKeybinding.equals]
  · rw [Bool.eq_iff_iff, equals_iff_fields, equals_iff_fields]
    tauto
  · constructor
    · intro h
      have hd := congrArg String.data h
      rw [getHashCode_data, getHashCode_data] at hd
      simp only [List.cons.injEq] at hd
      obtain ⟨h1, h2, h3, h4, h5⟩ := hd
      have fc : ∀ x y : Bool,
          ((if x then '1' else '0') : Char) = (if y then '1' else '0') → x = y := by decide
      exact (equals_iff_fields a b).mpr
        ⟨fc _ _ h1, fc _ _ h2, fc _ _ h3, fc _ _ h4, decStr_inj _ _ h5⟩
    · intro h
      have hab : a = b := by
        obtain ⟨e1, e2, e3, e4, e5⟩ := (equals_iff_fields a b).mp h
        cases a; cases b; simp_all
      rw [hab]

/-- C10. The attach relay always passes exactly width 400 (hence at least 400)
to `setMinimumSize`, and its handler table forwards the native
fullscreen-enter/leave events to the `window-fullscreen` channel with payloads
`true`/`false` and the native focus/blur events to the `window-focus` channel
with payloads `true`/`false`. -/
theorem attachTitlebarToWindow_props :
    ∀ sizes : List Nat,
      400 ≤ (attachTitlebarToWindow sizes).minimumSize.1
        ∧ (attachTitlebarToWindow sizes).minimumSize.1 = 400
        ∧ (attachTitlebarToWindow sizes).handlers.lookup "enter-full-screen"
            = some ("window-fullscreen", true)
        ∧ (attachTitlebarToWindow sizes).handlers.lookup "leave-full-screen"
            = some ("window-fullscreen", false)
        ∧ (attachTitlebarToWindow sizes).handlers.lookup "focus"
            = some ("window-focus", true)
        ∧ (attachTitlebarToWindow sizes).handlers.lookup "blur"
            = some ("window-focus", false) := by
  intro sizes
  refine ⟨le_refl 400, rfl, ?_, ?_, ?_, ?_⟩ <;> rfl

/-! ### Menu action tree theorems -/

/-- When every item of a level produces an action, the pre-pop list has one
action per item. -/
theorem buildPushed_length_all_produce :
    ∀ items : List MenuItem, (∀ it ∈ items, producesAction it = true) →
      (buildPushed items).length = items.length := by
  intro items
  induction items with
  | nil => intro _; rfl
  | cons it rest ih =>
    intro h
    have hone : (buildOne it).length = 1 := by
      cases it with
      | leaf i l t e c => rfl
      | submenu l sub =>
        have hp : 0 < (buildActions sub).length := by
          have := h _ (List.mem_cons_self _ _)
          simpa [producesAction] using this
        rw [buildActions] at hp
        simp only [buildOne]
        rw [if_pos hp]
        rfl
    rw [buildPushed, List.length_append, hone,
      ih (fun x hx => h x (List.mem_cons_of_mem _ hx)), List.length_cons]
    omega

/-- C3. At every level of the action-tree build, after the loop over the
items the final `target.pop()` removes the last pushed action, so a level
whose `n` items each produce an action yields exactly `n - 1` actions. -/
theorem updateActions_trailing_pop (items : List MenuItem)
    (h : ∀ it ∈ items, producesAction it = true) :
    buildActions items = (buildPushed items).dropLast
      ∧ (buildActions items).length = items.length - 1 := by
  refine ⟨rfl, ?_⟩
  rw [buildActions, List.length_dropLast, buildPushed_length_all_produce items h]

/-- A three-leaf menu level used as concrete input. -/
def threeLeaves : List MenuItem :=
  [MenuItem.leaf "copy" "Copy" "" true false,
   MenuItem.leaf "cut" "Cut" "" true false,
   MenuItem.leaf "paste" "Paste" "" true false]

/-- Witness for C3: three leaves, each producing an action, build to exactly
two actions. -/
theorem updateActions_trailing_pop_witness :
    buildActions threeLeaves = (buildPushed threeLeaves).dropLast
      ∧ (buildActions threeLeaves).length = threeLeaves.length - 1 :=
  updateActions_trailing_pop threeLeaves (by decide)

/-- The two leaf children of the sample submenu. -/
def submenuChildren : List MenuItem :=
  [MenuItem.leaf "new" "New" "" true false,
   MenuItem.leaf "open" "Open" "" true false]

/-- A menu whose single item is a submenu with a nonempty recursive build. -/
def menuWithTrailingSubmenu : List MenuItem :=
  [MenuItem.submenu "File" submenuChildren]

/-- C2 counterexample. The submenu node of `menuWithTrailingSubmenu` has a
recursive build with one action, yet the built action list of the menu is
empty — the trailing `target.pop()` removed the pushed `SubmenuAction`, so a
nonempty submenu node does not always appear in the built list. -/
theorem nonempty_submenu_dropped_counterexample :
    0 < (buildActions submenuChildren).length
      ∧ buildActions menuWithTrailingSubmenu = [] := by
  exact ⟨by decide, rfl⟩

/-- `noEmptySubDeepList` is `noEmptySubDeep` at every member. -/
theorem noEmptySubDeepList_iff_all :
    ∀ s : List CAction, noEmptySubDeepList s = true ↔ ∀ x ∈ s, noEmptySubDeep x = true := by
  intro s
  induction s with
  | nil => simp [noEmptySubDeepList]
  | cons a rest ih => simp [noEmptySubDeepList, noEmptySubDeep, Bool.and_eq_true, ih]

/-- Every action ever pushed by the build carries no empty submenu anywhere
(strong induction on the size of the item list). -/
theorem noEmpty_buildPushed_aux :
    ∀ (n : Nat) (items : List MenuItem), sizeOf items ≤ n →
      ∀ a ∈ buildPushed items, noEmptySubDeep a = true := by
  intro n
  induction n with
  | zero =>
    intro items hsz a ha
    cases items with
    | nil => simp [buildPushed] at ha
    | cons it rest =>
      simp only [List.cons.sizeOf_spec] at hsz
      omega
  | succ n ih =>
    intro items hsz a ha
    cases items with
    | nil => simp [buildPushed] at ha
    | cons it rest =>
      rw [buildPushed] at ha
      rcases List.mem_append.mp ha with h1 | h2
      · cases it with
        | leaf i l t e c =>
          simp only [buildOne, List.mem_singleton] at h1
          subst h1
          rfl
        | submenu l sub =>
          simp only [buildOne] at h1
          by_cases hc : (buildPushed sub).dropLast.length > 0
          · rw [if_pos hc] at h1
            simp only [List.mem_singleton] at h1
            subst h1
            rw [noEmptySubDeep, Bool.and_eq_true]
            constructor
            · have hne := List.length_pos.mp hc
              rcases hd : (buildPushed sub).dropLast with _ | ⟨x, xs⟩
              · exact absurd hd hne
              · rfl
            · rw [noEmptySubDeepList_iff_all]
              intro x hx
              refine ih sub ?_ x (List.dropLast_subset _ hx)
              simp only [List.cons.sizeOf_spec, MenuItem.submenu.sizeOf_spec] at hsz
              omega
          · rw [if_neg hc] at h1
            cases h1
      · refine ih rest ?_ a h2
        simp only [List.cons.sizeOf_spec] at hsz
        omega

/-- C2 amended: a submenu node whose recursive build is nonempty is always
pushed as a `SubmenuAction` into its level's list, and survives into the
built list of that level except when it ends up as the level's last pushed
action (the trailing `target.pop()` then removes it); a submenu node whose
recursive build is empty is never pushed, so no `SubmenuAction` anywhere in
the built tree carries an empty action list. -/
theorem submenu_build_amended :
    (∀ (items : List MenuItem) (l : String) (sub : List MenuItem),
        MenuItem.submenu l sub ∈ items → 0 < (buildActions sub).length →
          CAction.subAction (mnemonicMenuLabel false false l) (buildActions sub)
            ∈ buildPushed items)
      ∧ (∀ items : List MenuItem, buildActions items = (buildPushed items).dropLast)
      ∧ (∀ (items : List MenuItem) (a : CAction),
          a ∈ buildActions items → noEmptySubDeep a = true) := by
  refine ⟨?_, fun _ => rfl, ?_⟩
  · intro items l sub
    induction items with
    | nil => intro hmem _; cases hmem
    | cons it rest ih =>
      intro hmem hlen
      rw [buildPushed]
      rcases List.mem_cons.mp hmem with heq | hmem'
      · subst heq
        apply List.mem_append_left
        rw [buildActions] at hlen
        simp only [buildOne]
        rw [if_pos hlen]
        exact List.mem_singleton.mpr rfl
      · exact List.mem_append_right _ (ih hmem' hlen)
  · intro items a ha
    rw [buildActions] at ha
    exact noEmpty_buildPushed_aux (sizeOf items) items (le_refl _) a
      (List.dropLast_subset _ ha)

/-- C9. On a non-Macintosh OS, `updateMenu` fills each top-level entry by
running `updateActions` on the whole root menu, so every entry of the built
menu bar carries the action list of the root, and any two entries carry the
same action list. -/
theorem updateMenu_uses_root_for_every_item :
    (∀ (items : List MenuItem) (e : String × List CAction),
        e ∈ updateMenuEntries items → e.2 = buildActions items)
      ∧ (∀ (items : List MenuItem) (e1 e2 : String × List CAction),
          e1 ∈ updateMenuEntries items → e2 ∈ updateMenuEntries items → e1.2 = e2.2)
      ∧ (∀ (items : List MenuItem) (it : MenuItem), it ∈ items →
          (mnemonicMenuLabel false false it.labelOf, buildActions items)
            ∈ updateMenuEntries items) := by
  have h1 : ∀ (items : List MenuItem) (e : String × List CAction),
      e ∈ updateMenuEntries items → e.2 = buildActions items := by
    intro items e he
    rcases List.mem_map.mp he with ⟨it, _, rfl⟩
    rfl
  refine ⟨h1, ?_, ?_⟩
  · intro items e1 e2 he1 he2
    rw [h1 items e1 he1, h1 items e2 he2]
  · intro items it hit
    exact List.mem_map.mpr ⟨it, hit, rfl⟩

/-! ### mnemonicMenuLabel theorems -/

/-- On a Macintosh the escape pass `.replace(/&/g, '&')` is the identity. -/
theorem escapeAmp_true_id : ∀ c : List Char, escapeAmp true c = c := by
  intro c
  induction c with
  | nil => rfl
  | cons c0 rest ih =>
    by_cases hc : c0 = '&'
    · subst hc; simp [escapeAmp, ih]
    · simp [escapeAmp, hc, ih]

/-- With mnemonics force-disabled on a non-Macintosh OS, the escape pass
doubles each `'&'`. -/
theorem escapeAmp_false_doubles :
    ∀ a b : List Char, '&' ∉ a →
      escapeAmp false (a ++ '&' :: b) = a ++ '&' :: '&' :: escapeAmp false b := by
  intro a b
  induction a with
  | nil => intro _; rfl
  | cons c a' ih =>
    intro h
    have hc : c ≠ '&' := fun e => h (e ▸ List.mem_cons_self _ _)
    have h' : '&' ∉ a' := fun hx => h (List.mem_cons_of_mem _ hx)
    simp only [List.cons_append]
    rw [show escapeAmp false (c :: (a' ++ '&' :: b)) = c :: escapeAmp false (a' ++ '&' :: b)
        from by simp [escapeAmp, hc],
      ih h']

/-- The escape pass leaves an `'&'`-free list unchanged. -/
theorem escapeAmp_no_amp :
    ∀ (mac : Bool) (c : List Char), (∀ ch ∈ c, ch ≠ '&') → escapeAmp mac c = c := by
  intro mac c
  induction c with
  | nil => intro _; rfl
  | cons c0 rest ih =>
    intro h
    have hc : c0 ≠ '&' := h c0 (List.mem_cons_self _ _)
    have hrest : ∀ ch ∈ rest, ch ≠ '&' := fun ch hm => h ch (List.mem_cons_of_mem _ hm)
    simp [escapeAmp, hc, ih hrest]

/-- The strip pass leaves an `'&'`-free list unchanged. -/
theorem stripMnemonics_no_amp :
    ∀ c : List Char, (∀ ch ∈ c, ch ≠ '&') → stripMnemonics c = c := by
  intro c
  induction c with
  | nil => intro _; rfl
  | cons c0 rest ih =>
    intro h
    have hc : c0 ≠ '&' := h c0 (List.mem_cons_self _ _)
    have hrest : ∀ ch ∈ rest, ch ≠ '&' := fun ch hm => h ch (List.mem_cons_of_mem _ hm)
    cases rest with
    | nil => simp [stripMnemonics, hc]
    | cons r0 rtail =>
      have hr0 : r0 ≠ '&' := hrest r0 (List.mem_cons_self _ _)
      rw [show stripMnemonics (c0 :: r0 :: rtail) = c0 :: stripMnemonics (r0 :: rtail)
          from by simp [stripMnemonics, hc, hr0],
        ih hrest]

/-- The strip pass removes a `"&&"` pair after a prefix free of `'&'` and
`'('`. -/
theorem stripMnemonics_double :
    ∀ a b : List Char, '&' ∉ a → '(' ∉ a →
      stripMnemonics (a ++ '&' :: '&' :: b) = a ++ stripMnemonics b := by
  intro a b
  induction a with
  | nil => intro _ _; rfl
  | cons c a' ih =>
    intro h hp
    have hc : c ≠ '&' := fun e => h (e ▸ List.mem_cons_self _ _)
    have hcp : c ≠ '(' := fun e => hp (e ▸ List.mem_cons_self _ _)
    have h' : '&' ∉ a' := fun hx => h (List.mem_cons_of_mem _ hx)
    have hp' : '(' ∉ a' := fun hx => hp (List.mem_cons_of_mem _ hx)
    simp only [List.cons_append]
    rw [show stripMnemonics (c :: (a' ++ '&' :: '&' :: b))
          = c :: stripMnemonics (a' ++ '&' :: '&' :: b)
        from by simp [stripMnemonics, hc, hcp],
      ih h' hp']

/-- The strip pass removes a `"(&&X)"` group (word character `X`) after a
prefix free of `'&'` and `'('`. -/
theorem stripMnemonics_group :
    ∀ (a : List Char) (w : Char) (b : List Char), '&' ∉ a → '(' ∉ a →
      isWordChar w = true →
      stripMnemonics (a ++ '(' :: '&' :: '&' :: w :: ')' :: b) = a ++ stripMnemonics b := by
  intro a w b
  induction a with
  | nil =>
    intro _ _ hw
    simp [stripMnemonics, hw]
  | cons c a' ih =>
    intro h hp hw
    have hc : c ≠ '&' := fun e => h (e ▸ List.mem_cons_self _ _)
    have hcp : c ≠ '(' := fun e => hp (e ▸ List.mem_cons_self _ _)
    have h' : '&' ∉ a' := fun hx => h (List.mem_cons_of_mem _ hx)
    have hp' : '(' ∉ a' := fun hx => hp (List.mem_cons_of_mem _ hx)
    simp only [List.cons_append]
    rw [show stripMnemonics (c :: (a' ++ '(' :: '&' :: '&' :: w :: ')' :: b))
          = c :: stripMnemonics (a' ++ '(' :: '&' :: '&' :: w :: ')' :: b)
        from by simp [stripMnemonics, hc, hcp],
      ih h' hp' hw]

/-- The non-Macintosh pass turns a `"&&"` match into `"&"` after a prefix
free of `'&'`. -/
theorem swapAmp_double :
    ∀ a b : List Char, '&' ∉ a →
      swapAmp (a ++ '&' :: '&' :: b) = a ++ '&' :: swapAmp b := by
  intro a b
  induction a with
  | nil => intro _; rfl
  | cons c a' ih =>
    intro h
    have hc : c ≠ '&' := fun e => h (e ▸ List.mem_cons_self _ _)
    have h' : '&' ∉ a' := fun hx => h (List.mem_cons_of_mem _ hx)
    simp only [List.cons_append]
    rw [show swapAmp (c :: (a' ++ '&' :: '&' :: b)) = c :: swapAmp (a' ++ '&' :: '&' :: b)
        from by simp [swapAmp, hc],
      ih h']

/-- The non-Macintosh pass turns a lone `'&'` (not followed by another `'&'`)
into `"&&"` after a prefix free of `'&'`. -/
theorem swapAmp_single :
    ∀ a b : List Char, '&' ∉ a → b.head? ≠ some '&' →
      swapAmp (a ++ '&' :: b) = a ++ '&' :: '&' :: swapAmp b := by
  intro a b
  induction a with
  | nil =>
    intro _ hb
    cases b with
    | nil => rfl
    | cons b0 bs =>
      have hb0 : b0 ≠ '&' := by simpa using hb
      simp [swapAmp, hb0]
  | cons c a' ih =>
    intro h hb
    have hc : c ≠ '&' := fun e => h (e ▸ List.mem_cons_self _ _)
    have h' : '&' ∉ a' := fun hx => h (List.mem_cons_of_mem _ hx)
    simp only [List.cons_append]
    rw [show swapAmp (c :: (a' ++ '&' :: b)) = c :: swapAmp (a' ++ '&' :: b)
        from by simp [swapAmp, hc],
      ih h' hb]

/-- C5 counterexample. On a non-Macintosh OS with mnemonics enabled,
`mnemonicMenuLabel` does not leave the single `"&"` of `"a&b"` unchanged: it
doubles it to `"a&&b"`. -/
theorem mnemonic_single_amp_counterexample :
    mnemonicMenuLabel false false "a&b" = "a&&b" ∧ ("a&&b" : String) ≠ "a&b" := by
  exact ⟨rfl, by decide⟩

/-- C5 amended: on a non-Macintosh OS with mnemonics enabled,
`mnemonicMenuLabel` maps every `"&&"` occurrence to `"&"` and doubles every
lone `"&"` to `"&&"` (instead of leaving it unchanged). -/
theorem mnemonic_nonMac_amended :
    (∀ l : String, mnemonicMenuLabel false false l = String.mk (swapAmp l.data))
      ∧ (∀ a b : List Char, '&' ∉ a →
          swapAmp (a ++ '&' :: '&' :: b) = a ++ '&' :: swapAmp b)
      ∧ (∀ a b : List Char, '&' ∉ a → b.head? ≠ some '&' →
          swapAmp (a ++ '&' :: b) = a ++ '&' :: '&' :: swapAmp b) :=
  ⟨fun _ => rfl, swapAmp_double, swapAmp_single⟩

/-- Witness for the C5 amended statement at concrete inputs: inside `"a&&b"`
the `"&&"` becomes `"&"`, and inside `"a&b"` the lone `"&"` becomes `"&&"`. -/
theorem mnemonic_nonMac_amended_witness :
    swapAmp (['a'] ++ '&' :: '&' :: ['b']) = ['a'] ++ '&' :: swapAmp ['b']
      ∧ swapAmp (['a'] ++ '&' :: ['b']) = ['a'] ++ '&' :: '&' :: swapAmp ['b'] :=
  ⟨(mnemonic_nonMac_amended.2.1) ['a'] ['b'] (by decide),
   (mnemonic_nonMac_amended.2.2) ['a'] ['b'] (by decide) (by decide)⟩

/-- C6 counterexample. On a Macintosh, `mnemonicMenuLabel` leaves the lone
`"&"` of `"a&b"` as it is — it is not converted to the escaped form
`"&&"`. -/
theorem mnemonic_mac_lone_amp_counterexample :
    mnemonicMenuLabel true false "a&b" = "a&b" ∧ ("a&b" : String) ≠ "a&&b" := by
  exact ⟨rfl, by decide⟩

/-- C6 amended: the Macintosh / force-disabled branch removes every `"(&&X)"`
group and every bare `"&&"` pair; a remaining lone `"&"` is doubled to its
escaped form `"&&"` only when mnemonics are force-disabled on a non-Macintosh
OS, and is left unchanged on a Macintosh; on a label with no `'&'` the
transform is a no-op in both cases. -/
theorem mnemonic_mac_amended :
    (∀ l : String, mnemonicMenuLabel true false l = String.mk (stripMnemonics l.data))
      ∧ (∀ l : String,
          mnemonicMenuLabel false true l = String.mk (escapeAmp false (stripMnemonics l.data)))
      ∧ (∀ a b : List Char, '&' ∉ a → '(' ∉ a →
          stripMnemonics (a ++ '&' :: '&' :: b) = a ++ stripMnemonics b)
      ∧ (∀ (a : List Char) (w : Char) (b : List Char), '&' ∉ a → '(' ∉ a →
          isWordChar w = true →
          stripMnemonics (a ++ '(' :: '&' :: '&' :: w :: ')' :: b) = a ++ stripMnemonics b)
      ∧ (∀ a b : List Char, '&' ∉ a →
          escapeAmp false (a ++ '&' :: b) = a ++ '&' :: '&' :: escapeAmp false b)
      ∧ (∀ l : String, (∀ ch ∈ l.data, ch ≠ '&') →
          mnemonicMenuLabel true false l = l ∧ mnemonicMenuLabel false true l = l) := by
  refine ⟨?_, fun _ => rfl, stripMnemonics_double, stripMnemonics_group,
    escapeAmp_false_doubles, ?_⟩
  · intro l
    simp only [mnemonicMenuLabel, Bool.true_or, if_pos, escapeAmp_true_id]
  · intro l h
    constructor
    · rw [show mnemonicMenuLabel true false l
            = String.mk (escapeAmp true (stripMnemonics l.data)) from rfl,
        escapeAmp_true_id, stripMnemonics_no_amp l.data h]
    · rw [show mnemonicMenuLabel false true l
            = String.mk (escapeAmp false (stripMnemonics l.data)) from rfl,
        stripMnemonics_no_amp l.data h, escapeAmp_no_amp false l.data h]

end CET
